import Mathlib

/-!
Verification of the transcript service (`app/service.py`, `app/routes.py`).

The Python functions are shallowly embedded as Lean definitions. External
effects (HTTP calls, S3, the filesystem, the Transcribe service, sleeps) are
modelled by environment records whose fields hold the outcome of each external
call; functions that can raise return `Except String`. Python `dict.get`
defaults are modelled with `Option` fields.
-/

namespace InfoService

/-! ### Data model

`RawTranscriptItem` of the Amazon Transcribe result document
(`transcript_result["results"]["items"]`).  Every field is optional because
the Python code reads them with `dict.get`. -/

/-- One element of an item's `"alternatives"` list; `content` is read with
`.get("content", "")`. -/
structure Alternative where
  content : Option String
deriving Repr, DecidableEq

/-- One element of `results.items`: `type`, `alternatives` and `start_time`
are all read via `.get`. -/
structure TItem where
  type : Option String
  alternatives : Option (List Alternative)
  start_time : Option String
deriving Repr, DecidableEq

/-- The `"results"` object of the Transcribe result document. -/
structure TResults where
  items : Option (List TItem)
deriving Repr, DecidableEq

/-- The raw Transcribe result document: `transcript_result.get("results", {})`. -/
structure TranscriptResultDoc where
  results : Option TResults
deriving Repr, DecidableEq

/-- `transcript_result.get("results", {}).get("items", [])`. -/
def TranscriptResultDoc.itemsOf (doc : TranscriptResultDoc) : List TItem :=
  match doc.results with
  | none => []
  | some r => r.items.getD []

/-- Rendering of a Python value that is either `None` or a string inside an
f-string: `None` prints as `"None"`. -/
def pyStr : Option String → String
  | none => "None"
  | some s => s

/-- `item.get("alternatives", [{}])[0].get("content", "")`, which raises
`IndexError` when the `alternatives` key is present but its list is empty. -/
def wordOf (item : TItem) : Except String String :=
  match item.alternatives with
  | none => .ok ""
  | some [] => .error "list index out of range"
  | some (a :: _) => .ok (a.content.getD "")

/-- Total variant of `wordOf`; agrees with it whenever `wordOf` succeeds. -/
def wordOfD (item : TItem) : String :=
  match item.alternatives with
  | none => ""
  | some [] => ""
  | some (a :: _) => a.content.getD ""

/-- An item on which `wordOf` does not raise. -/
def goodItem (item : TItem) : Prop := item.alternatives ≠ some []

instance : DecidablePred goodItem := fun i => by unfold goodItem; infer_instance

/-- The items of type `"pronunciation"`, in source order. -/
def pronOf (items : List TItem) : List TItem :=
  items.filter (fun i => i.type = some "pronunciation")

/-- `f"{current_start_time}: {segment_text}"` with
`segment_text = " ".join(current_segment)`. -/
def renderSeg (ts : Option String) (seg : List String) : String :=
  pyStr ts ++ ": " ++ String.intercalate " " seg

/-- The loop of `process_transcription_result`, with the accumulated
`grouped_transcript`, the `current_segment` and `current_start_time` state
threaded explicitly.  An `IndexError` from the word extraction aborts the
whole call, as in Python. -/
def procLoop : List TItem → List String → List String → Option String →
    Except String (List String)
  | [], grouped, cur, curStart =>
    if cur.isEmpty then .ok grouped else .ok (grouped ++ [renderSeg curStart cur])
  | item :: rest, grouped, cur, curStart =>
    if item.type = some "pronunciation" then
      match wordOf item with
      | .error e => .error e
      | .ok word =>
        let curStart' := if curStart.isNone then item.start_time else curStart
        let cur' := cur ++ [word]
        if 5 ≤ cur'.length then
          procLoop rest (grouped ++ [renderSeg curStart' cur']) [] none
        else
          procLoop rest grouped cur' curStart'
    else
      procLoop rest grouped cur curStart

/-- `process_transcription_result` (service.py line 109). -/
def process_transcription_result (doc : TranscriptResultDoc) :
    Except String (List String) :=
  procLoop doc.itemsOf [] [] none

/-! ### Chunk-level characterisation of the grouper -/

/-- Groups of five consecutive elements; the last group may be shorter. -/
def chunks5 {α : Type} : List α → List (List α)
  | [] => []
  | a :: rest => (a :: rest.take 4) :: chunks5 (rest.drop 4)
termination_by l => l.length
decreasing_by simp only [List.length_drop, List.length_cons]; omega

/-- The timestamp a chunk is rendered with: the fold of
`if current_start_time is None: current_start_time = start_time`
over the chunk's items. -/
def tsOf (c : List TItem) : Option String :=
  c.foldl (fun acc i => acc.orElse (fun _ => i.start_time)) none

/-- How one chunk of pronunciation items is rendered. -/
def renderChunk (c : List TItem) : String :=
  renderSeg (tsOf c) (c.map wordOfD)

/-- The grouping loop restricted to the pronunciation items, with total word
extraction; `procLoop` agrees with it whenever no item raises. -/
def groupWords : List TItem → List String → Option String → List String
  | [], cur, curStart =>
    if cur.isEmpty then [] else [renderSeg curStart cur]
  | i :: rest, cur, curStart =>
    let curStart' := if curStart.isNone then i.start_time else curStart
    let cur' := cur ++ [wordOfD i]
    if 5 ≤ cur'.length then
      renderSeg curStart' cur' :: groupWords rest [] none
    else
      groupWords rest cur' curStart'

lemma orElse_none (x : Option String) : (x.orElse fun _ => none) = x := by
  cases x <;> rfl

lemma orElse_assoc (x y z : Option String) :
    ((x.orElse fun _ => y).orElse fun _ => z) =
      (x.orElse fun _ => y.orElse fun _ => z) := by
  cases x <;> rfl

lemma tsFold (l : List TItem) (a : Option String) :
    l.foldl (fun acc i => acc.orElse (fun _ => i.start_time)) a =
      a.orElse (fun _ => tsOf l) := by
  induction l generalizing a with
  | nil => simp [tsOf, orElse_none]
  | cons i rest ih =>
    show List.foldl _ (a.orElse fun _ => i.start_time) rest = _
    rw [ih]
    have h2 : tsOf (i :: rest) = (i.start_time.orElse fun _ => tsOf rest) := by
      show List.foldl _ ((none : Option String).orElse fun _ => i.start_time) rest = _
      rw [ih]; rfl
    rw [h2, orElse_assoc]

lemma tsOf_cons (i : TItem) (rest : List TItem) :
    tsOf (i :: rest) = (i.start_time.orElse fun _ => tsOf rest) := by
  show List.foldl _ ((none : Option String).orElse fun _ => i.start_time) rest = _
  rw [tsFold]; rfl

lemma ifNone_eq_orElse (ts x : Option String) :
    (if ts.isNone then x else ts) = (ts.orElse fun _ => x) := by
  cases ts <;> rfl

/-- Unfolding one full or final chunk of `groupWords` from an arbitrary
mid-chunk state. -/
lemma groupWords_general (ps : List TItem) :
    ∀ (cur : List String) (ts : Option String), cur.length < 5 →
    groupWords ps cur ts =
      if 5 - cur.length ≤ ps.length then
        renderSeg (ts.orElse fun _ => tsOf (ps.take (5 - cur.length)))
            (cur ++ (ps.take (5 - cur.length)).map wordOfD)
          :: groupWords (ps.drop (5 - cur.length)) [] none
      else if cur.length + ps.length = 0 then []
      else [renderSeg (ts.orElse fun _ => tsOf ps) (cur ++ ps.map wordOfD)] := by
  induction ps with
  | nil =>
    intro cur ts h
    have h1 : ¬ (5 - cur.length ≤ 0) := by omega
    simp only [groupWords, List.length_nil, h1, if_false, Nat.add_zero]
    rcases cur with _ | ⟨c, cur⟩
    · simp
    · simp [tsOf, orElse_none]
  | cons i rest ih =>
    intro cur ts h
    by_cases h4 : cur.length = 4
    · have hlen : 5 ≤ (cur ++ [wordOfD i]).length := by simp [h4]
      have hc : 5 - cur.length = 1 := by omega
      simp only [groupWords, hlen, if_true, hc, List.take_succ_cons, List.take_zero,
        List.drop_succ_cons, List.drop_zero, List.length_cons]
      have : (1 : Nat) ≤ rest.length + 1 := by omega
      simp only [this, if_true, tsOf_cons, tsOf, List.foldl_nil, orElse_none,
        ifNone_eq_orElse, List.map_cons, List.map_nil]
      rfl
    · have hlt : ¬ 5 ≤ (cur ++ [wordOfD i]).length := by
        simp only [List.length_append, List.length_cons, List.length_nil]; omega
      have hcur' : (cur ++ [wordOfD i]).length < 5 := by
        simp only [List.length_append, List.length_cons, List.length_nil]; omega
      simp only [groupWords, hlt, if_false]
      rw [ih _ _ hcur']
      have hc : 5 - (cur ++ [wordOfD i]).length = 4 - cur.length := by
        simp only [List.length_append, List.length_cons, List.length_nil]; omega
      have hc2 : 5 - cur.length = (4 - cur.length) + 1 := by omega
      rw [hc, hc2]
      by_cases h5 : 4 - cur.length ≤ rest.length
      · have h6 : (4 - cur.length) + 1 ≤ (i :: rest).length := by
          simp only [List.length_cons]; omega
        simp only [h5, if_true, h6, List.take_succ_cons, List.drop_succ_cons,
          List.map_cons, tsOf_cons, ifNone_eq_orElse, orElse_assoc]
        simp
      · have h6 : ¬ ((4 - cur.length) + 1 ≤ (i :: rest).length) := by
          simp only [List.length_cons]; omega
        have h7 : ¬ ((cur ++ [wordOfD i]).length + rest.length = 0) := by
          simp only [List.length_append, List.length_cons, List.length_nil]; omega
        have h8 : ¬ (cur.length + (i :: rest).length = 0) := by
          simp only [List.length_cons]; omega
        simp only [h5, if_false, h6, h7, h8, List.map_cons, tsOf_cons,
          ifNone_eq_orElse, orElse_assoc]
        simp

lemma chunks5_nil {α : Type} : chunks5 ([] : List α) = [] := by
  simp only [chunks5]

lemma chunks5_cons {α : Type} (a : α) (rest : List α) :
    chunks5 (a :: rest) = (a :: rest.take 4) :: chunks5 (rest.drop 4) := by
  simp only [chunks5]

/-- On an empty mid-chunk state, `groupWords` is exactly the rendering of the
five-element chunks. -/
lemma groupWords_eq_chunks (ps : List TItem) :
    groupWords ps [] none = (chunks5 ps).map renderChunk := by
  induction ps using chunks5.induct with
  | case1 => simp [groupWords, chunks5_nil]
  | case2 i rest ih =>
    rw [groupWords_general (i :: rest) [] none (by simp)]
    simp only [List.length_nil, Nat.sub_zero, List.length_cons]
    by_cases h : 4 ≤ rest.length
    · have h5 : 5 ≤ rest.length + 1 := by omega
      simp only [h5, if_true, List.take_succ_cons, List.drop_succ_cons]
      rw [ih]
      simp [chunks5_cons, renderChunk, renderSeg, Option.orElse]
    · have h5 : ¬ (5 ≤ rest.length + 1) := by omega
      have htake : rest.take 4 = rest := List.take_of_length_le (by omega)
      have hdrop : rest.drop 4 = ([] : List TItem) := List.drop_of_length_le (by omega)
      simp only [h5, if_false, List.nil_append]
      simp [chunks5_cons, chunks5_nil, htake, hdrop, renderChunk, renderSeg, Option.orElse]

lemma chunks5_length {α : Type} (l : List α) :
    (chunks5 l).length = (l.length + 4) / 5 := by
  induction l using chunks5.induct with
  | case1 => simp [chunks5_nil]
  | case2 a rest ih =>
    simp only [chunks5_cons, List.length_cons, ih, List.length_drop]
    by_cases h : 4 ≤ rest.length
    · have h1 : rest.length - 4 + 4 + 5 = rest.length + 1 + 4 := by omega
      have := Nat.add_div_right (rest.length - 4 + 4) (by omega : (0:Nat) < 5)
      omega
    · have h1 : rest.length - 4 = 0 := by omega
      have h2 : (rest.length + 1 + 4) / 5 = 1 := by
        apply Nat.div_eq_of_lt_le <;> omega
      simp [h1, h2]

lemma chunks5_flatten {α : Type} (l : List α) : (chunks5 l).flatten = l := by
  induction l using chunks5.induct with
  | case1 => simp [chunks5_nil]
  | case2 a rest ih =>
    simp only [chunks5_cons, List.flatten_cons, ih, List.cons_append, List.take_append_drop]

lemma chunks5_mem_length {α : Type} (l : List α) :
    ∀ c ∈ chunks5 l, 1 ≤ c.length ∧ c.length ≤ 5 := by
  induction l using chunks5.induct with
  | case1 => intro c hc; simp [chunks5_nil] at hc
  | case2 a rest ih =>
    intro c hc
    simp only [chunks5_cons, List.mem_cons] at hc
    rcases hc with hc | hc
    · subst hc
      constructor
      · simp
      · simp only [List.length_cons, List.length_take]; omega
    · exact ih c hc

lemma chunks5_dropLast {α : Type} (l : List α) :
    ∀ c ∈ (chunks5 l).dropLast, c.length = 5 := by
  induction l using chunks5.induct with
  | case1 => intro c hc; simp [chunks5_nil] at hc
  | case2 a rest ih =>
    intro c hc
    by_cases h : rest.drop 4 = []
    · simp [chunks5_cons, h, chunks5_nil] at hc
    · have hne : chunks5 (rest.drop 4) ≠ [] := by
        rcases hd : rest.drop 4 with _ | ⟨x, xs⟩
        · exact absurd hd h
        · simp [chunks5_cons]
      rw [chunks5_cons, List.dropLast_cons_of_ne_nil hne] at hc
      rcases List.mem_cons.mp hc with hc | hc
      · subst hc
        have h4 : 4 ≤ rest.length := by
          by_contra hx
          exact h (List.drop_of_length_le (by omega))
        simp only [List.length_cons, List.length_take]; omega
      · exact ih c hc

lemma chunks5_getLast (l : List α) (h : l ≠ []) :
    ∃ c, (chunks5 l).getLast? = some c ∧
      c.length = (if l.length % 5 = 0 then 5 else l.length % 5) := by
  induction l using chunks5.induct with
  | case1 => exact absurd rfl h
  | case2 a rest ih =>
    by_cases hd : rest.drop 4 = []
    · have h4 : rest.length ≤ 4 := by
        have := List.length_drop 4 rest
        rw [hd] at this
        simp at this; omega
      have htake : rest.take 4 = rest := List.take_of_length_le (by omega)
      refine ⟨a :: rest, ?_, ?_⟩
      · simp [chunks5_cons, hd, htake, chunks5_nil]
      · simp only [List.length_cons]
        by_cases h5 : rest.length = 4
        · simp [h5]
        · have hm : (rest.length + 1) % 5 = rest.length + 1 := Nat.mod_eq_of_lt (by omega)
          rw [hm, if_neg (by omega)]
    · obtain ⟨c, hc1, hc2⟩ := ih hd
      have hne : chunks5 (rest.drop 4) ≠ [] := by
        rcases hx : rest.drop 4 with _ | ⟨y, ys⟩
        · exact absurd hx hd
        · simp [chunks5_cons]
      refine ⟨c, ?_, ?_⟩
      · rw [chunks5_cons, List.getLast?_cons, hc1]
        rfl
      · have h4 : 4 ≤ rest.length := by
          by_contra hx
          exact hd (List.drop_of_length_le (by omega))
        have hmod : (rest.drop 4).length % 5 = (a :: rest).length % 5 := by
          simp only [List.length_drop, List.length_cons]
          conv_rhs => rw [show rest.length + 1 = (rest.length - 4) + 5 by omega]
          rw [Nat.add_mod_right]
        rw [hc2, hmod]

lemma wordOf_eq_of_good (i : TItem) (h : goodItem i) : wordOf i = .ok (wordOfD i) := by
  unfold goodItem at h
  unfold wordOf wordOfD
  cases ha : i.alternatives with
  | none => rfl
  | some l =>
    cases l with
    | nil => exact absurd ha h
    | cons a t => rfl

lemma wordOf_ok_good (i : TItem) (w : String) (h : wordOf i = .ok w) :
    goodItem i ∧ w = wordOfD i := by
  unfold wordOf at h
  unfold goodItem wordOfD
  cases ha : i.alternatives with
  | none =>
    rw [ha] at h
    exact ⟨by simp [ha], (Except.ok.inj h).symm⟩
  | some l =>
    cases l with
    | nil => rw [ha] at h; exact Except.noConfusion h
    | cons a t =>
      rw [ha] at h
      exact ⟨by simp [ha], (Except.ok.inj h).symm⟩

/-- One-step unfolding of `List.mapM` over `Except` as an explicit match. -/
lemma mapM_wordOf_cons (i : TItem) (l : List TItem) :
    (i :: l).mapM wordOf =
      (match wordOf i, l.mapM wordOf with
       | .error e, _ => .error e
       | .ok _, .error e => .error e
       | .ok w, .ok ws => .ok (w :: ws)) := by
  rw [List.mapM_cons]
  cases wordOf i with
  | error e => rfl
  | ok w =>
    cases l.mapM wordOf with
    | error e => rfl
    | ok ws => rfl

lemma mapM_wordOf_ok (ps : List TItem) (h : ∀ i ∈ ps, goodItem i) :
    ps.mapM wordOf = .ok (ps.map wordOfD) := by
  induction ps with
  | nil => rfl
  | cons i rest ih =>
    rw [mapM_wordOf_cons, wordOf_eq_of_good i (h i (by simp)),
      ih (fun j hj => h j (by simp [hj]))]
    rfl

/-- The loop of `process_transcription_result` in terms of the pronunciation
items alone: it fails exactly when extracting some pronunciation word fails,
and otherwise appends the groups computed by `groupWords`. -/
lemma procLoop_eq (items : List TItem) :
    ∀ (grouped cur : List String) (curStart : Option String),
    procLoop items grouped cur curStart =
      ((pronOf items).mapM wordOf).map
        (fun _ => grouped ++ groupWords (pronOf items) cur curStart) := by
  induction items with
  | nil =>
    intro grouped cur curStart
    have hm : (pronOf ([] : List TItem)).mapM wordOf = Except.ok [] := rfl
    rw [hm]
    rcases cur with _ | ⟨c, cs⟩ <;> simp [procLoop, groupWords, pronOf, Except.map]
  | cons i rest ih =>
    intro grouped cur curStart
    by_cases hp : i.type = some "pronunciation"
    · have hfil : pronOf (i :: rest) = i :: pronOf rest := by
        simp [pronOf, List.filter_cons, hp]
      rw [hfil]
      simp only [procLoop, hp, if_true]
      cases hw : wordOf i with
      | error e =>
        rw [mapM_wordOf_cons, hw]
        rfl
      | ok w =>
        obtain ⟨hg, hwd⟩ := wordOf_ok_good i w hw
        subst hwd
        rw [mapM_wordOf_cons, hw]
        cases hrest : (pronOf rest).mapM wordOf with
        | error e =>
          by_cases h5 : 5 ≤ (cur ++ [wordOfD i]).length
          · simp only [h5, if_true]
            rw [ih, hrest]
            rfl
          · simp only [h5, if_false]
            rw [ih, hrest]
            rfl
        | ok ws =>
          by_cases h5 : 5 ≤ (cur ++ [wordOfD i]).length
          · simp only [h5, if_true]
            rw [ih, hrest]
            show Except.ok _ = Except.ok _
            congr 1
            simp only [groupWords, h5, if_true]
            simp
          · simp only [h5, if_false]
            rw [ih, hrest]
            show Except.ok _ = Except.ok _
            congr 1
            simp only [groupWords, h5, if_false]
    · have hfil : pronOf (i :: rest) = pronOf rest := by
        simp [pronOf, List.filter_cons, hp]
      rw [hfil]
      simp only [procLoop, hp, if_false]
      exact ih grouped cur curStart

/-- `process_transcription_result` succeeds exactly on documents whose
pronunciation items all extract a word, and then equals the chunk rendering. -/
theorem process_eq_chunks (doc : TranscriptResultDoc)
    (h : ∀ i ∈ pronOf doc.itemsOf, goodItem i) :
    process_transcription_result doc =
      .ok ((chunks5 (pronOf doc.itemsOf)).map renderChunk) := by
  unfold process_transcription_result
  rw [procLoop_eq, mapM_wordOf_ok _ h]
  simp [Except.map, groupWords_eq_chunks]

theorem process_ok_shape (doc : TranscriptResultDoc) (out : List String)
    (h : process_transcription_result doc = .ok out) :
    out = (chunks5 (pronOf doc.itemsOf)).map renderChunk := by
  unfold process_transcription_result at h
  rw [procLoop_eq] at h
  cases hm : (pronOf doc.itemsOf).mapM wordOf with
  | error e => rw [hm] at h; exact Except.noConfusion h
  | ok ws =>
    rw [hm] at h
    simp only [Except.map] at h
    rw [groupWords_eq_chunks] at h
    simpa using (Except.ok.inj h).symm

/-- The grouping contract of the Segment Grouper: `ceil(N/5)` segments, each
a timestamped rendering of one chunk of words, all chunks but the last of
size five, no trailing partial chunk dropped, word order preserved. -/
def grouperSpec (doc : TranscriptResultDoc) (out : List String) : Prop :=
  out.length = ((pronOf doc.itemsOf).length + 4) / 5 ∧
  ((pronOf doc.itemsOf).length = 0 → out = []) ∧
  ∃ cs : List (List String),
    cs.length = out.length ∧
    cs.flatten = (pronOf doc.itemsOf).map wordOfD ∧
    (∀ c ∈ cs.dropLast, c.length = 5) ∧
    (∀ c ∈ cs, 1 ≤ c.length ∧ c.length ≤ 5) ∧
    ((pronOf doc.itemsOf).length % 5 ≠ 0 →
      ∃ c, cs.getLast? = some c ∧ c.length = (pronOf doc.itemsOf).length % 5) ∧
    ∃ tss : List String,
      tss.length = out.length ∧
      out = List.zipWith (fun t c => t ++ ": " ++ String.intercalate " " c) tss cs

/-- A document with seven pronunciation items and one non-pronunciation item,
used to exercise the grouper on a 5 + 2 split. -/
def docSeven : TranscriptResultDoc :=
  ⟨some ⟨some ((List.range 7).map (fun k =>
      ⟨some "pronunciation", some [⟨some ("w" ++ toString (k + 1))⟩],
        some (toString k ++ ".0")⟩)
    ++ [⟨some "punctuation", some [⟨some "."⟩], none⟩])⟩⟩

/-- C1: for every raw transcription result document accepted by the grouper,
`process_transcription_result` filters to items of type `"pronunciation"` and
returns exactly `ceil(N/5)` segment strings in source order; every segment
except possibly the last holds exactly 5 words, the last holds `N % 5` words
when `N` is not a multiple of 5 (no trailing partial group is dropped);
concatenating the words of all segments reproduces the filtered word sequence;
zero pronunciation items yield an empty output. -/
theorem segment_grouper_correct (doc : TranscriptResultDoc) (out : List String)
    (h : process_transcription_result doc = .ok out) : grouperSpec doc out := by
  have hshape := process_ok_shape doc out h
  subst hshape
  unfold grouperSpec
  refine ⟨?_, ?_, ?_⟩
  · rw [List.length_map, chunks5_length]
  · intro h0
    have : pronOf doc.itemsOf = [] := List.length_eq_zero.mp h0
    rw [this, chunks5_nil, List.map_nil]
  · refine ⟨(chunks5 (pronOf doc.itemsOf)).map (List.map wordOfD),
      by rw [List.length_map, List.length_map], ?_, ?_, ?_, ?_, ?_⟩
    · rw [← List.map_flatten, chunks5_flatten]
    · intro c hc
      rw [← List.map_dropLast] at hc
      obtain ⟨c0, hc0, hceq⟩ := List.mem_map.mp hc
      subst hceq
      rw [List.length_map]
      exact chunks5_dropLast _ c0 hc0
    · intro c hc
      obtain ⟨c0, hc0, hceq⟩ := List.mem_map.mp hc
      subst hceq
      rw [List.length_map]
      exact chunks5_mem_length _ c0 hc0
    · intro hmod
      have hne : pronOf doc.itemsOf ≠ [] := by
        intro hnil
        rw [hnil] at hmod
        exact hmod rfl
      obtain ⟨c0, hlast, hlen⟩ := chunks5_getLast (pronOf doc.itemsOf) hne
      refine ⟨c0.map wordOfD, ?_, ?_⟩
      · rw [List.getLast?_map, hlast]
        rfl
      · rw [List.length_map, hlen, if_neg hmod]
    · refine ⟨(chunks5 (pronOf doc.itemsOf)).map (fun c => pyStr (tsOf c)),
        by rw [List.length_map, List.length_map], ?_⟩
      rw [List.zipWith_map, List.zipWith_same]
      rfl

/-- Closed instance of `segment_grouper_correct` on a seven-word document. -/
theorem segment_grouper_correct_witness :
    process_transcription_result docSeven =
      .ok ["0.0: w1 w2 w3 w4 w5", "5.0: w6 w7"] ∧
    grouperSpec docSeven ["0.0: w1 w2 w3 w4 w5", "5.0: w6 w7"] :=
  ⟨rfl, segment_grouper_correct docSeven _ rfl⟩

/-- A document whose single pronunciation item carries a present-but-empty
`alternatives` list (`item["alternatives"] == []`). -/
def docEmptyAlternatives : TranscriptResultDoc :=
  ⟨some ⟨some [⟨some "pronunciation", some [], some "0.5"⟩]⟩⟩

/-- Two pronunciation items; the first has no `start_time`, the second has
`start_time = "1.0"`. -/
def docLateStart : TranscriptResultDoc :=
  ⟨some ⟨some [⟨some "pronunciation", some [⟨some "a"⟩], none⟩,
               ⟨some "pronunciation", some [⟨some "b"⟩], some "1.0"⟩]⟩⟩

/-- C10 fails as stated: an item with a present-but-empty `alternatives` list
makes `process_transcription_result` raise `IndexError`, and a chunk whose
first item has no `start_time` is rendered with the second item's
`start_time`, not with the literal prefix `"None: "`. -/
theorem grouper_totality_counterexample :
    process_transcription_result docEmptyAlternatives =
      .error "list index out of range" ∧
    process_transcription_result docLateStart = .ok ["1.0: a b"] ∧
    "1.0: a b" ≠ "None: a b" :=
  ⟨rfl, rfl, by decide⟩

/-- An item with no `alternatives` entry at all. -/
def itemNoAlternatives : TItem := ⟨some "pronunciation", none, none⟩

/-- An item whose first alternative has no `content` field. -/
def itemNoContent : TItem := ⟨some "pronunciation", some [⟨none⟩], none⟩

/-- A document holding the two malformed items above. -/
def docMalformed : TranscriptResultDoc :=
  ⟨some ⟨some [itemNoAlternatives, itemNoContent]⟩⟩

/-- C10 (amended): `process_transcription_result` never raises on
pronunciation items that lack an `alternatives` entry or whose first
alternative lacks a `content` field — each contributes the empty string as
its word, still counted toward the 5-word chunk size; an item whose
`alternatives` list is present but empty raises `IndexError`; and a chunk is
rendered with the literal prefix `"None: "` exactly when no item of the chunk
has a `start_time` field — otherwise the first present `start_time` among the
chunk's items is used, even when the chunk's first item lacks one. -/
theorem grouper_totality_amended (doc : TranscriptResultDoc) :
    ((∀ i ∈ pronOf doc.itemsOf, i.alternatives ≠ some []) →
      process_transcription_result doc =
        .ok ((chunks5 (pronOf doc.itemsOf)).map renderChunk)) ∧
    (∀ i : TItem, i.alternatives = some [] →
      process_transcription_result ⟨some ⟨some [i]⟩⟩ =
        .error "list index out of range" ∨ ¬ i.type = some "pronunciation") ∧
    (∀ i : TItem, i.alternatives = none → wordOfD i = "") ∧
    (∀ i : TItem, ∀ t : List Alternative,
      i.alternatives = some (⟨none⟩ :: t) → wordOfD i = "") ∧
    (∀ c : List TItem, tsOf c = none ↔ ∀ i ∈ c, i.start_time = none) ∧
    (∀ c : List TItem, tsOf c = none →
      renderChunk c = "None: " ++ String.intercalate " " (c.map wordOfD)) := by
  have hts : ∀ c : List TItem, tsOf c = none ↔ ∀ i ∈ c, i.start_time = none := by
    intro c
    induction c with
    | nil => simp [tsOf]
    | cons i rest ih =>
      rw [tsOf_cons]
      cases hs : i.start_time with
      | none =>
        simp only [Option.orElse, ih, List.mem_cons]
        constructor
        · intro hall j hj
          rcases hj with hj | hj
          · subst hj; exact hs
          · exact hall j hj
        · intro hall j hj
          exact hall j (Or.inr hj)
      | some s =>
        simp only [Option.orElse]
        constructor
        · intro hc; exact Option.noConfusion hc
        · intro hall
          have := hall i (by simp)
          rw [hs] at this
          exact Option.noConfusion this
  refine ⟨?_, ?_, ?_, ?_, hts, ?_⟩
  · intro hgood
    exact process_eq_chunks doc (fun i hi => hgood i hi)
  · intro i hbad
    by_cases hp : i.type = some "pronunciation"
    · left
      show procLoop [i] [] [] none = _
      have hw : wordOf i = .error "list index out of range" := by
        unfold wordOf
        rw [hbad]
      simp only [procLoop, hp, if_true, hw]
    · right; exact hp
  · intro i hnone
    unfold wordOfD
    rw [hnone]
  · intro i t hcons
    unfold wordOfD
    rw [hcons]
    rfl
  · intro c hc
    unfold renderChunk renderSeg
    rw [hc]
    have hns : (("None" : String) ++ ": ") = "None: " := rfl
    show ("None" ++ ": ") ++ _ = "None: " ++ _
    rw [hns]

/-- Closed instance of `grouper_totality_amended` on the malformed document
and on a chunk with no timestamps. -/
theorem grouper_totality_amended_witness :
    process_transcription_result docMalformed =
      .ok ((chunks5 (pronOf docMalformed.itemsOf)).map renderChunk) ∧
    wordOfD itemNoAlternatives = "" ∧
    wordOfD itemNoContent = "" ∧
    (tsOf [itemNoAlternatives] = none ↔
      ∀ i ∈ [itemNoAlternatives], i.start_time = none) ∧
    renderChunk [itemNoAlternatives] =
      "None: " ++ String.intercalate " " ([itemNoAlternatives].map wordOfD) :=
  ⟨(grouper_totality_amended docMalformed).1 (by decide),
   (grouper_totality_amended docMalformed).2.2.1 itemNoAlternatives rfl,
   (grouper_totality_amended docMalformed).2.2.2.1 itemNoContent [] rfl,
   (grouper_totality_amended docMalformed).2.2.2.2.1 [itemNoAlternatives],
   (grouper_totality_amended docMalformed).2.2.2.2.2 [itemNoAlternatives] rfl⟩

/-! ### Caption Fetcher and Transcript Formatter -/

/-- One caption entry returned by `YouTubeTranscriptApi.get_transcript`:
a dict with `start` and `text` keys.  `start` is kept as its rendered string
form, since `format_transcript` only ever interpolates it into an f-string. -/
structure CaptionEntry where
  start : String
  text : String
deriving Repr, DecidableEq

/-- `format_transcript` (service.py line 246):
`[f"{entry['start']}: {entry['text']}" for entry in transcript]`. -/
def format_transcript (transcript : List CaptionEntry) : List String :=
  transcript.map (fun entry => entry.start ++ ": " ++ entry.text)

/-- C9: `format_transcript` returns one string per caption entry, in input
order, the i-th being exactly `"<start>: <text>"` of the i-th entry. -/
theorem format_transcript_verbatim (l : List CaptionEntry) :
    (format_transcript l).length = l.length ∧
    ∀ i, (h : i < l.length) →
      (format_transcript l)[i]? = some (l[i].start ++ ": " ++ l[i].text) := by
  constructor
  · exact List.length_map l _
  · intro i h
    unfold format_transcript
    rw [List.getElem?_map, List.getElem?_eq_getElem h]
    rfl

/-- Closed instance of `format_transcript_verbatim` on two entries. -/
theorem format_transcript_verbatim_witness :
    (format_transcript [⟨"0.0", "hi"⟩, ⟨"1.5", "there"⟩]).length = 2 ∧
    (format_transcript [⟨"0.0", "hi"⟩, ⟨"1.5", "there"⟩])[1]? =
      some "1.5: there" :=
  ⟨(format_transcript_verbatim [⟨"0.0", "hi"⟩, ⟨"1.5", "there"⟩]).1,
   (format_transcript_verbatim [⟨"0.0", "hi"⟩, ⟨"1.5", "there"⟩]).2 1
     (by decide)⟩

/-! ### Metadata Fetcher -/

/-- The `snippet` object of one YouTube API result item. -/
structure Snippet where
  title : String
  description : String
  channelTitle : String
deriving Repr, DecidableEq

/-- One entry of the YouTube API `items` array. -/
structure YItem where
  snippet : Snippet
deriving Repr, DecidableEq

/-- The parsed JSON body of the YouTube videos API response; `items` is
`none` when the key is absent. -/
structure YData where
  items : Option (List YItem)
deriving Repr, DecidableEq

/-- Outcome of the single `requests.get` round trip made by
`get_video_details`: HTTP status code, raw body text and parsed JSON. -/
structure MetaEnv where
  status_code : Nat
  text : String
  data : YData
deriving Repr, DecidableEq

/-- The `{title, description, channel}` dict built from the first item. -/
structure VideoDetails where
  title : String
  description : String
  channel : String
deriving Repr, DecidableEq

/-- `get_video_details` (service.py line 51): one remote round trip; raises
unless the status is 200 and `items` is present and non-empty. -/
def get_video_details (env : MetaEnv) : Except String VideoDetails :=
  if env.status_code ≠ 200 then
    .error ("Failed to fetch video info: " ++ toString env.status_code ++ ", " ++ env.text)
  else
    match env.data.items with
    | none => .error "No video found"
    | some [] => .error "No video found"
    | some (x :: _) =>
      .ok ⟨x.snippet.title, x.snippet.description, x.snippet.channelTitle⟩

/-- C5: the Metadata Fetcher fails (with the spec's `MetadataError`) when the
remote call is not a success or when `items` is absent or empty, and on
success returns exactly the `{title, description, channel}` of the first
item's snippet.  The embedding consults the remote response exactly once by
construction (a single `MetaEnv` value models the single round trip). -/
theorem metadata_fetcher_contract (env : MetaEnv) :
    (env.status_code ≠ 200 →
      get_video_details env =
        .error ("Failed to fetch video info: " ++ toString env.status_code ++
          ", " ++ env.text)) ∧
    (env.status_code = 200 → (env.data.items = none ∨ env.data.items = some []) →
      get_video_details env = .error "No video found") ∧
    (∀ x rest, env.status_code = 200 → env.data.items = some (x :: rest) →
      get_video_details env =
        .ok ⟨x.snippet.title, x.snippet.description, x.snippet.channelTitle⟩) := by
  refine ⟨?_, ?_, ?_⟩
  · intro h
    unfold get_video_details
    rw [if_pos h]
  · intro h200 hitems
    unfold get_video_details
    rw [if_neg (by simp [h200])]
    rcases hitems with h | h <;> rw [h]
  · intro x rest h200 hitems
    unfold get_video_details
    rw [if_neg (by simp [h200]), hitems]

/-- Closed instance of `metadata_fetcher_contract`: a 404, an empty `items`
array, and a single-item success. -/
theorem metadata_fetcher_contract_witness :
    get_video_details ⟨404, "nf", ⟨none⟩⟩ =
      .error "Failed to fetch video info: 404, nf" ∧
    get_video_details ⟨200, "", ⟨some []⟩⟩ = .error "No video found" ∧
    get_video_details ⟨200, "", ⟨some [⟨⟨"T", "D", "C"⟩⟩]⟩⟩ = .ok ⟨"T", "D", "C"⟩ :=
  ⟨(metadata_fetcher_contract ⟨404, "nf", ⟨none⟩⟩).1 (by decide),
   (metadata_fetcher_contract ⟨200, "", ⟨some []⟩⟩).2.1 rfl (Or.inr rfl),
   (metadata_fetcher_contract ⟨200, "", ⟨some [⟨⟨"T", "D", "C"⟩⟩]⟩⟩).2.2
     ⟨⟨"T", "D", "C"⟩⟩ [] rfl rfl⟩

/-! ### Storage Uploader -/

/-- `os.path.basename`: the component after the final `/`. -/
def basename (path : String) : String :=
  ⟨path.data.foldl (fun acc c => if c = '/' then [] else acc ++ [c]) []⟩

/-- Outcomes of the external calls made by `upload_to_s3`, in the order the
code performs them: the bucket listing (`s3_client.buckets.all()`), the local
`open(file_path, 'rb')`, the `put_object` transfer, and `os.remove`. -/
structure S3Env where
  listBuckets : Except String Unit
  openLocal : Except String Unit
  putObject : Except String Unit
  removeLocal : Except String Unit
deriving Repr

/-- Observable side effects of one `upload_to_s3` call: the (bucket, key) an
object was stored under, if any, and whether the local file was deleted. -/
structure S3Trace where
  stored : Option (String × String)
  removed : Bool
deriving Repr, DecidableEq

/-- `upload_to_s3` (service.py line 175).  Note the code puts the object into
the hardcoded bucket `'learningmodeai-transcription'` (line 195) while the
returned URI is built from the `bucket_name` argument (line 196), and a
failing `os.remove` is caught by the same `except` and re-raised as the
generic upload failure (lines 199, 204-206). -/
def upload_to_s3 (env : S3Env) (file_path bucket_name : String)
    (object_name : Option String) : Except String String × S3Trace :=
  let key := object_name.getD (basename file_path)
  match env.listBuckets with
  | .error e => (.error ("Failed to upload file to S3: " ++ e), ⟨none, false⟩)
  | .ok _ =>
    match env.openLocal with
    | .error e => (.error ("Failed to upload file to S3: " ++ e), ⟨none, false⟩)
    | .ok _ =>
      match env.putObject with
      | .error e => (.error ("Failed to upload file to S3: " ++ e), ⟨none, false⟩)
      | .ok _ =>
        let file_uri := "s3://" ++ bucket_name ++ "/" ++ key
        match env.removeLocal with
        | .error e =>
          (.error ("Failed to upload file to S3: " ++ e),
           ⟨some ("learningmodeai-transcription", key), false⟩)
        | .ok _ =>
          (.ok file_uri, ⟨some ("learningmodeai-transcription", key), true⟩)

/-- `true` on `.ok`. -/
def exceptOk {ε α : Type} : Except ε α → Bool
  | .ok _ => true
  | .error _ => false

/-- C6: if any transport step fails, `upload_to_s3` raises the upload error
and the local file is untouched; if the transfer succeeds (and the OS lets
the deletion go through, cf. the C7 divergence), the local file no longer
exists immediately afterwards. -/
theorem uploader_file_lifecycle (env : S3Env) (fp bucket : String)
    (key? : Option String) :
    ((exceptOk env.listBuckets = false ∨ exceptOk env.openLocal = false ∨
        exceptOk env.putObject = false) →
      (∃ m, (upload_to_s3 env fp bucket key?).1 =
        .error ("Failed to upload file to S3: " ++ m)) ∧
      (upload_to_s3 env fp bucket key?).2.removed = false) ∧
    (exceptOk env.listBuckets = true → exceptOk env.openLocal = true →
      exceptOk env.putObject = true → exceptOk env.removeLocal = true →
      (upload_to_s3 env fp bucket key?).2.removed = true ∧
      ∃ uri, (upload_to_s3 env fp bucket key?).1 = .ok uri) := by
  obtain ⟨lb, op, pu, rm⟩ := env
  constructor
  · intro hfail
    cases lb with
    | error e => exact ⟨⟨e, rfl⟩, rfl⟩
    | ok u =>
      cases op with
      | error e => exact ⟨⟨e, rfl⟩, rfl⟩
      | ok u2 =>
        cases pu with
        | error e => exact ⟨⟨e, rfl⟩, rfl⟩
        | ok u3 =>
          exfalso
          rcases hfail with h | h | h <;> exact Bool.noConfusion h
  · intro h1 h2 h3 h4
    cases lb with
    | error e => exact Bool.noConfusion h1
    | ok u =>
      cases op with
      | error e => exact Bool.noConfusion h2
      | ok u2 =>
        cases pu with
        | error e => exact Bool.noConfusion h3
        | ok u3 =>
          cases rm with
          | error e => exact Bool.noConfusion h4
          | ok u4 => exact ⟨rfl, ⟨_, rfl⟩⟩

/-- Closed instance of `uploader_file_lifecycle`: a failed `put_object`
leaves the file in place; a fully successful upload removes it. -/
theorem uploader_file_lifecycle_witness :
    ((∃ m, (upload_to_s3 ⟨.ok (), .ok (), .error "timeout", .ok ()⟩
        "abc123.mp3" "learningmodeai-transcription" none).1 =
          .error ("Failed to upload file to S3: " ++ m)) ∧
      (upload_to_s3 ⟨.ok (), .ok (), .error "timeout", .ok ()⟩
        "abc123.mp3" "learningmodeai-transcription" none).2.removed = false) ∧
    ((upload_to_s3 ⟨.ok (), .ok (), .ok (), .ok ()⟩
        "abc123.mp3" "learningmodeai-transcription" none).2.removed = true ∧
      ∃ uri, (upload_to_s3 ⟨.ok (), .ok (), .ok (), .ok ()⟩
        "abc123.mp3" "learningmodeai-transcription" none).1 = .ok uri) :=
  ⟨(uploader_file_lifecycle ⟨.ok (), .ok (), .error "timeout", .ok ()⟩
      "abc123.mp3" "learningmodeai-transcription" none).1
      (Or.inr (Or.inr rfl)),
   (uploader_file_lifecycle ⟨.ok (), .ok (), .ok (), .ok ()⟩
      "abc123.mp3" "learningmodeai-transcription" none).2 rfl rfl rfl rfl⟩

/-- C7 (code bug): when the upload succeeds but `os.remove` fails, the code
raises `Failed to upload file to S3: ...` instead of logging and returning
the URI — the deletion failure escalates through the shared `except` block. -/
theorem uploader_remove_failure_escalates :
    (upload_to_s3 ⟨.ok (), .ok (), .ok (), .error "Permission denied"⟩
        "abc123.mp3" "learningmodeai-transcription" none).1 =
      .error "Failed to upload file to S3: Permission denied" ∧
    (upload_to_s3 ⟨.ok (), .ok (), .ok (), .error "Permission denied"⟩
        "abc123.mp3" "learningmodeai-transcription" none).2 =
      ⟨some ("learningmodeai-transcription", "abc123.mp3"), false⟩ :=
  ⟨rfl, rfl⟩

/-- C8 (code bug): the object is always stored in the hardcoded bucket
`learningmodeai-transcription`, while the returned URI names the
`bucket_name` argument; for any other target bucket the two disagree.  The
object key does default to the file's base name. -/
theorem uploader_bucket_mismatch :
    (upload_to_s3 ⟨.ok (), .ok (), .ok (), .ok ()⟩ "dir/a.mp3" "mybucket" none).1 =
      .ok "s3://mybucket/a.mp3" ∧
    (upload_to_s3 ⟨.ok (), .ok (), .ok (), .ok ()⟩ "dir/a.mp3" "mybucket" none).2.stored =
      some ("learningmodeai-transcription", "a.mp3") ∧
    "mybucket" ≠ "learningmodeai-transcription" :=
  ⟨rfl, rfl, by decide⟩

/-! ### Transcription Job Runner -/

/-- The external Transcribe service as seen through the polling loop of
`transcribe_audio`: `status i` is the `TranscriptionJobStatus` returned by
the `(i+1)`-th `get_transcription_job` call, and `resultDoc` the JSON
document fetched from `TranscriptFileUri` on completion. -/
structure TranscribeEnv where
  status : Nat → String
  resultDoc : TranscriptResultDoc

/-- `status in ["COMPLETED", "FAILED"]`. -/
def isTerminal (s : String) : Bool :=
  s = "COMPLETED" || s = "FAILED"

/-- The `while True` polling loop of `transcribe_audio` (service.py lines
230-242), with `time.sleep(5)` counted in `slept` and the unbounded loop
given explicit fuel: `none` means the fuel ran out with the loop still
polling.  The FAILED branch raises `Transcription job failed.`, which the
enclosing `except` re-wraps. -/
def transcribeLoop (env : TranscribeEnv) :
    Nat → Nat → Nat → Option (Except String TranscriptResultDoc × Nat)
  | 0, _, _ => none
  | fuel + 1, i, slept =>
    if isTerminal (env.status i) then
      if env.status i = "COMPLETED" then
        some (.ok env.resultDoc, slept)
      else
        some (.error "Failed to transcribe audio: Transcription job failed.", slept)
    else
      transcribeLoop env fuel (i + 1) (slept + 5)

/-- `transcribe_audio` (service.py line 208), from job submission onwards. -/
def transcribe_audio (env : TranscribeEnv) (fuel : Nat) :
    Option (Except String TranscriptResultDoc × Nat) :=
  transcribeLoop env fuel 0 0

lemma transcribeLoop_shift (env : TranscribeEnv) (n : Nat) :
    ∀ (i slept fuel : Nat),
    (∀ j, j < n → isTerminal (env.status (i + j)) = false) →
    isTerminal (env.status (i + n)) = true →
    n < fuel →
    transcribeLoop env fuel i slept =
      some ((if env.status (i + n) = "COMPLETED" then .ok env.resultDoc
             else .error "Failed to transcribe audio: Transcription job failed."),
            slept + 5 * n) := by
  induction n with
  | zero =>
    intro i slept fuel hbefore hterm hfuel
    cases fuel with
    | zero => omega
    | succ f =>
      rw [Nat.add_zero] at hterm
      simp only [transcribeLoop, hterm, if_true, Nat.add_zero, Nat.mul_zero]
      by_cases hc : env.status i = "COMPLETED" <;> simp [hc]
  | succ n ih =>
    intro i slept fuel hbefore hterm hfuel
    cases fuel with
    | zero => omega
    | succ f =>
      have h0 : isTerminal (env.status i) = false := by
        have := hbefore 0 (by omega)
        simpa using this
      simp only [transcribeLoop, h0, Bool.false_eq_true, if_false]
      have hb : ∀ j, j < n → isTerminal (env.status (i + 1 + j)) = false := by
        intro j hj
        have := hbefore (j + 1) (by omega)
        rwa [show i + (j + 1) = i + 1 + j by omega] at this
      have ht : isTerminal (env.status (i + 1 + n)) = true := by
        rwa [show i + (n + 1) = i + 1 + n by omega] at hterm
      rw [ih (i + 1) (slept + 5) f hb ht (by omega)]
      rw [show i + 1 + n = i + (n + 1) by omega,
        show slept + 5 + 5 * n = slept + 5 * (n + 1) by omega]

lemma transcribeLoop_diverges (env : TranscribeEnv)
    (h : ∀ i, isTerminal (env.status i) = false) :
    ∀ (fuel i slept : Nat), transcribeLoop env fuel i slept = none := by
  intro fuel
  induction fuel with
  | zero => intro i slept; rfl
  | succ f ih =>
    intro i slept
    simp only [transcribeLoop, h i, Bool.false_eq_true, if_false]
    exact ih (i + 1) (slept + 5)

/-- C4: `transcribe_audio` polls at a fixed 5-time-unit interval and stops at
the first terminal status: if the `(n+1)`-th status is the first terminal one
it has slept `5 * n` units, returns the fetched result document on
`COMPLETED` and raises the job error on `FAILED`; if no status is ever
terminal the loop never returns, whatever the fuel. -/
theorem transcription_polling_contract (env : TranscribeEnv) :
    (∀ n, (∀ j, j < n → isTerminal (env.status j) = false) →
      isTerminal (env.status n) = true →
      ∀ fuel, n < fuel →
      transcribe_audio env fuel =
        some ((if env.status n = "COMPLETED" then .ok env.resultDoc
               else .error "Failed to transcribe audio: Transcription job failed."),
              5 * n)) ∧
    ((∀ i, isTerminal (env.status i) = false) →
      ∀ fuel, transcribe_audio env fuel = none) := by
  constructor
  · intro n hbefore hterm fuel hfuel
    unfold transcribe_audio
    have := transcribeLoop_shift env n 0 0 fuel
      (by intro j hj; simpa using hbefore j hj) (by simpa using hterm) hfuel
    simpa using this
  · intro h fuel
    exact transcribeLoop_diverges env h fuel 0 0

/-- Closed instance of `transcription_polling_contract`: a job that completes
at the third poll (after sleeping 10 units), one that fails at the first
poll, and one that never leaves IN_PROGRESS. -/
theorem transcription_polling_contract_witness :
    transcribe_audio
      ⟨fun i => if i < 2 then "IN_PROGRESS" else "COMPLETED", ⟨none⟩⟩ 4 =
      some (.ok ⟨none⟩, 10) ∧
    transcribe_audio ⟨fun _ => "FAILED", ⟨none⟩⟩ 1 =
      some (.error "Failed to transcribe audio: Transcription job failed.", 0) ∧
    transcribe_audio ⟨fun _ => "IN_PROGRESS", ⟨none⟩⟩ 3 = none := by
  refine ⟨?_, ?_, ?_⟩
  · have := (transcription_polling_contract
      ⟨fun i => if i < 2 then "IN_PROGRESS" else "COMPLETED", ⟨none⟩⟩).1 2
      (by intro j hj; interval_cases j <;> decide) (by decide) 4 (by omega)
    simpa using this
  · have := (transcription_polling_contract ⟨fun _ => "FAILED", ⟨none⟩⟩).1 0
      (by intro j hj; omega) (by decide) 1 (by omega)
    simpa using this
  · exact (transcription_polling_contract ⟨fun _ => "IN_PROGRESS", ⟨none⟩⟩).2
      (fun i => rfl) 3

/-! ### Orchestrator: fetch_video_transcript and fetch_video_info -/

/-- The two distinguished caption-fetch failures
(`NoTranscriptFound`, `TranscriptsDisabled`) and any other exception. -/
inductive CapErr
  | noTranscriptFound
  | transcriptsDisabled
  | otherExc (msg : String)
deriving Repr, DecidableEq

/-- External calls observable from `fetch_video_transcript`, in program
order: the caption fetch, then the fallback chain's stages. -/
inductive Ev
  | captions
  | download
  | upload
  | transcribe
  | group
deriving Repr, DecidableEq

/-- The environment of one `fetch_video_transcript` call: the outcome of
`YouTubeTranscriptApi.get_transcript`, of `download_audio`, of the
`os.path.exists` check, of `upload_to_s3` (as a function of the audio path)
and of `transcribe_audio` (as a function of the S3 URI). -/
structure FTEnv where
  captions : Except CapErr (List CaptionEntry)
  download : Except String String
  pathExists : String → Bool
  upload : String → Except String String
  transcribe : String → Except String TranscriptResultDoc

/-- The second `try` block of `fetch_video_transcript` (service.py lines
86-106): download, existence check, upload to the fixed bucket, transcription
job, grouping; any exception is wrapped into
`Failed to fetch transcript via fallback: ...`. -/
def fallbackChain (env : FTEnv) : Except String (List String) × List Ev :=
  match env.download with
  | .error e =>
    (.error ("Failed to fetch transcript via fallback: " ++ e), [.download])
  | .ok audio_file =>
    if ¬ env.pathExists audio_file then
      (.error ("Failed to fetch transcript via fallback: Audio file not found: "
         ++ audio_file), [.download])
    else
      match env.upload audio_file with
      | .error e =>
        (.error ("Failed to fetch transcript via fallback: " ++ e),
         [.download, .upload])
      | .ok s3_uri =>
        match env.transcribe s3_uri with
        | .error e =>
          (.error ("Failed to fetch transcript via fallback: " ++ e),
           [.download, .upload, .transcribe])
        | .ok doc =>
          match process_transcription_result doc with
          | .error e =>
            (.error ("Failed to fetch transcript via fallback: " ++ e),
             [.download, .upload, .transcribe, .group])
          | .ok segs => (.ok segs, [.download, .upload, .transcribe, .group])

/-- `fetch_video_transcript` (service.py line 77), paired with the trace of
external calls it makes.  A successful caption fetch returns the formatted
captions at once; `NoTranscriptFound` / `TranscriptsDisabled` fall through to
the fallback chain; any other caption exception propagates uncaught. -/
def fetch_video_transcript (env : FTEnv) :
    Except String (List String) × List Ev :=
  match env.captions with
  | .ok transcript => (.ok (format_transcript transcript), [.captions])
  | .error .noTranscriptFound =>
    let r := fallbackChain env
    (r.1, .captions :: r.2)
  | .error .transcriptsDisabled =>
    let r := fallbackChain env
    (r.1, .captions :: r.2)
  | .error (.otherExc msg) => (.error msg, [.captions])

/-- C2: on the two distinguished caption failures the orchestrator runs the
fallback chain exactly once and never re-attempts the caption fetch; on a
successful caption fetch it returns the formatted captions immediately and
the fallback chain is never entered. -/
theorem orchestrator_fallback_once (env : FTEnv) :
    ((env.captions = .error .noTranscriptFound ∨
      env.captions = .error .transcriptsDisabled) →
      (fetch_video_transcript env).2.count .captions = 1 ∧
      (fetch_video_transcript env).2.count .download = 1 ∧
      (fetch_video_transcript env).2.head? = some .captions) ∧
    (∀ cs, env.captions = .ok cs →
      fetch_video_transcript env = (.ok (format_transcript cs), [.captions])) := by
  have hchain : (fallbackChain env).2.count Ev.captions = 0 ∧
      (fallbackChain env).2.count Ev.download = 1 := by
    unfold fallbackChain
    cases hdl : env.download with
    | error e => simp
    | ok audio_file =>
      by_cases hex : env.pathExists audio_file
      · simp only [hex, not_true, if_false]
        cases hup : env.upload audio_file with
        | error e => simp
        | ok s3_uri =>
          cases htr : env.transcribe s3_uri with
          | error e => simp [htr]
          | ok doc =>
            cases hpr : process_transcription_result doc with
            | error e => simp [htr, hpr]
            | ok segs => simp [htr, hpr]
      · simp only [hex, not_false_iff, if_true]
        simp
  constructor
  · intro hcap
    have hsplit : fetch_video_transcript env =
        ((fallbackChain env).1, .captions :: (fallbackChain env).2) := by
      rcases hcap with h | h <;>
        · unfold fetch_video_transcript
          rw [h]
    rw [hsplit]
    refine ⟨?_, ?_, rfl⟩
    · simp [List.count_cons, hchain.1]
    · simp [List.count_cons, hchain.2]
  · intro cs h
    unfold fetch_video_transcript
    rw [h]

/-- Closed instance of `orchestrator_fallback_once`: captions disabled with a
fully successful fallback, and a successful caption fetch. -/
theorem orchestrator_fallback_once_witness :
    ((fetch_video_transcript
        ⟨.error .transcriptsDisabled, .ok "abc123.mp3", fun _ => true,
         fun _ => .ok "s3://learningmodeai-transcription/abc123.mp3",
         fun _ => .ok ⟨none⟩⟩).2.count .captions = 1 ∧
      (fetch_video_transcript
        ⟨.error .transcriptsDisabled, .ok "abc123.mp3", fun _ => true,
         fun _ => .ok "s3://learningmodeai-transcription/abc123.mp3",
         fun _ => .ok ⟨none⟩⟩).2.count .download = 1 ∧
      (fetch_video_transcript
        ⟨.error .transcriptsDisabled, .ok "abc123.mp3", fun _ => true,
         fun _ => .ok "s3://learningmodeai-transcription/abc123.mp3",
         fun _ => .ok ⟨none⟩⟩).2.head? = some .captions) ∧
    fetch_video_transcript
        ⟨.ok [⟨"0.0", "hi"⟩], .error "unused", fun _ => false,
         fun _ => .error "unused", fun _ => .error "unused"⟩ =
      (.ok ["0.0: hi"], [.captions]) :=
  ⟨(orchestrator_fallback_once
      ⟨.error .transcriptsDisabled, .ok "abc123.mp3", fun _ => true,
       fun _ => .ok "s3://learningmodeai-transcription/abc123.mp3",
       fun _ => .ok ⟨none⟩⟩).1 (Or.inr rfl),
   (orchestrator_fallback_once
      ⟨.ok [⟨"0.0", "hi"⟩], .error "unused", fun _ => false,
       fun _ => .error "unused", fun _ => .error "unused"⟩).2
     [⟨"0.0", "hi"⟩] rfl⟩

/-- The transcript field of the response dict: the code stores either the
list of formatted lines or a plain failure string in `video_info["transcript"]`. -/
inductive TranscriptField
  | segments (lines : List String)
  | failureText (msg : String)
deriving Repr, DecidableEq

/-- The response dict of `fetch_video_info`. -/
structure VideoInfo where
  title : String
  description : String
  channel : String
  transcript : TranscriptField
deriving Repr, DecidableEq

/-- `fetch_video_info` (service.py line 35): metadata first (fatal on
failure), then the transcript; any transcript failure is swallowed and
replaced by the placeholder string. -/
def fetch_video_info (menv : MetaEnv) (fenv : FTEnv) : Except String VideoInfo :=
  match get_video_details menv with
  | .error e => .error e
  | .ok d =>
    match (fetch_video_transcript fenv).1 with
    | .ok segs => .ok ⟨d.title, d.description, d.channel, .segments segs⟩
    | .error _ =>
      .ok ⟨d.title, d.description, d.channel,
        .failureText "Transcript could not be fetched."⟩

/-- C3: when metadata fetching succeeds and the transcript stage fails with
any error, `fetch_video_info` still succeeds, keeps the metadata fields
exactly as fetched, and sets only the transcript field, to the placeholder
`"Transcript could not be fetched."`. -/
theorem video_info_placeholder (menv : MetaEnv) (fenv : FTEnv)
    (d : VideoDetails) (e : String)
    (hmeta : get_video_details menv = .ok d)
    (htr : (fetch_video_transcript fenv).1 = .error e) :
    fetch_video_info menv fenv =
      .ok ⟨d.title, d.description, d.channel,
        .failureText "Transcript could not be fetched."⟩ := by
  unfold fetch_video_info
  rw [hmeta, htr]

/-- Closed instance of `video_info_placeholder`: metadata succeeds, captions
raise an unrecognised exception. -/
theorem video_info_placeholder_witness :
    fetch_video_info ⟨200, "", ⟨some [⟨⟨"T", "D", "C"⟩⟩]⟩⟩
        ⟨.error (.otherExc "boom"), .error "unused", fun _ => false,
         fun _ => .error "unused", fun _ => .error "unused"⟩ =
      .ok ⟨"T", "D", "C", .failureText "Transcript could not be fetched."⟩ :=
  video_info_placeholder ⟨200, "", ⟨some [⟨⟨"T", "D", "C"⟩⟩]⟩⟩
    ⟨.error (.otherExc "boom"), .error "unused", fun _ => false,
     fun _ => .error "unused", fun _ => .error "unused"⟩
    ⟨"T", "D", "C"⟩ "boom" rfl rfl

end InfoService
